import Mathlib

/-!
Formal model of the heuristic content-extraction engine of the
insights-fetcher repository (app/scraper.py, app/competitor_analysis.py,
app/ai_processor.py), together with theorems settling the specification
claims about it.

Strings are modelled over `List Char`; all string primitives used by the
Python source (`in`, `split`, `strip`, `lower`, `replace`, `startswith`,
`endswith`, `join`) are reimplemented here on character lists so that every
definition is executable by the kernel.  Unicode-specific behaviour of
Python's `str.lower`/`\s` is modelled for the ASCII range, which covers
every input analysed below.
-/

set_option maxRecDepth 8192

namespace InsightsFetcher

/-! ## Character and string primitives (models of Python `str` operations) -/

/-- ASCII lower-casing of one character (models `str.lower` per character). -/
def lcOf (c : Char) : Char :=
  if 65 ≤ c.toNat ∧ c.toNat ≤ 90 then Char.ofNat (c.toNat + 32) else c

/-- Models Python `s.lower()` (ASCII range). -/
def lcS (s : String) : String := String.mk (s.data.map lcOf)

def isDigitC (c : Char) : Bool := 48 ≤ c.toNat ∧ c.toNat ≤ 57

def isAlphaC (c : Char) : Bool :=
  (65 ≤ c.toNat ∧ c.toNat ≤ 90) ∨ (97 ≤ c.toNat ∧ c.toNat ≤ 122)

def isAlnumC (c : Char) : Bool := isAlphaC c || isDigitC c

/-- Python `\w` / word character for `\b` boundaries: `[a-zA-Z0-9_]` (ASCII). -/
def isWordC (c : Char) : Bool := isAlnumC c || c = '_'

/-- Python whitespace as stripped by `str.strip()` and matched by `\s` (ASCII). -/
def isWsC (c : Char) : Bool :=
  c = ' ' || c = '\t' || c = '\n' || c = '\r' || c = '\x0b' || c = '\x0c'

/-- Substring test on character lists: models Python `pat in s`. -/
def listHasSub (pat : List Char) : List Char → Bool
  | [] => pat.isEmpty
  | c :: rest => pat.isPrefixOf (c :: rest) || listHasSub pat rest

/-- Models Python `pat in s` for strings. -/
def strHasSub (s pat : String) : Bool := listHasSub pat.data s.data

/-- Fueled split worker; fuel `s.length + 1` always suffices. -/
def splitAux (sep : List Char) : Nat → List Char → List Char → List (List Char)
  | 0, acc, rest => [acc.reverse ++ rest]
  | _ + 1, acc, [] => [acc.reverse]
  | fuel + 1, acc, c :: rest =>
    if sep.isPrefixOf (c :: rest) then
      acc.reverse :: splitAux sep fuel [] ((c :: rest).drop sep.length)
    else
      splitAux sep fuel (c :: acc) rest

/-- Models Python `s.split(sep)` for a non-empty separator. -/
def splitStr (s sep : String) : List String :=
  (splitAux sep.data (s.data.length + 1) [] s.data).map String.mk

/-- Strip characters satisfying `p` from both ends (models `str.strip(chars)`). -/
def stripEndsL (p : Char → Bool) (s : List Char) : List Char :=
  ((s.dropWhile p).reverse.dropWhile p).reverse

/-- Strip characters satisfying `p` from the right end only (models `str.rstrip`). -/
def rstripL (p : Char → Bool) (s : List Char) : List Char :=
  (s.reverse.dropWhile p).reverse

/-- Models Python `s.strip('/')`. -/
def stripSlashes (s : String) : String := String.mk (stripEndsL (· = '/') s.data)

/-- Models Python `s.rstrip('/')`. -/
def rstripSlashes (s : String) : String := String.mk (rstripL (· = '/') s.data)

/-- Models Python `s.strip()` (whitespace). -/
def pyStrip (s : String) : String := String.mk (stripEndsL isWsC s.data)

/-- Models Python `s.startswith(pre)`. -/
def strStarts (s pre : String) : Bool := pre.data.isPrefixOf s.data

/-- Models Python `s.endswith(suf)`. -/
def strEnds (s suf : String) : Bool := suf.data.isSuffixOf s.data

/-- Models Python `sep.join(parts)`. -/
def joinStr (sep : String) (parts : List String) : String :=
  String.mk (((parts.map String.data).intersperse sep.data).flatten)

/-- Models Python `s.replace(old, new)` (all non-overlapping occurrences,
left to right), via `new.join(s.split(old))`. -/
def strReplace (s old new : String) : String :=
  joinStr new (splitStr s old)

/-- Number of decimal digits in a string: models `len(re.sub(r'[^\d]', '', s))`. -/
def digitCount (s : String) : Nat := s.data.countP (fun c => isDigitC c)

/-- First-occurrence deduplication: models the contents of Python
`list(set(xs))`.  The iteration order of a Python `set` is unspecified; this
model fixes first-insertion order, on which no claim below depends. -/
def dedupFirst : List String → List String
  | [] => []
  | x :: xs => x :: (dedupFirst xs).filter (fun y => y ≠ x)

/-! ## Model of `urllib.parse.urlparse` (scheme / netloc / path split)

Mirrors CPython `urlsplit`: the scheme is recognised when the text before
the first `:` is non-empty, starts with an ASCII letter and consists of
letters, digits, `+`, `-`, `.`; a netloc follows `//` and extends to the
next `/`, `?` or `#`; then the fragment is split at the first `#` and the
query at the first `?`.  The `;`-parameter split of `urlparse` is not
modelled (no input analysed here contains `;`). -/

def schemeOk : List Char → Bool
  | [] => false
  | c :: rest => isAlphaC c && rest.all (fun d => isAlnumC d || d = '+' || d = '-' || d = '.')

def stripScheme (s : List Char) : List Char :=
  let pre := s.takeWhile (· ≠ ':')
  if pre.length = s.length then s
  else if schemeOk pre then s.drop (pre.length + 1) else s

def netlocSplit (s : List Char) : List Char × List Char :=
  if ['/', '/'].isPrefixOf s then
    let t := s.drop 2
    let nl := t.takeWhile (fun c => c ≠ '/' ∧ c ≠ '?' ∧ c ≠ '#')
    (nl, t.drop nl.length)
  else ([], s)

/-- Models `urlparse(url).netloc`. -/
def urlparseNetloc (url : String) : String :=
  String.mk (netlocSplit (stripScheme url.data)).1

/-- Models `urlparse(url).scheme` (lowercased; empty when none). -/
def urlparseScheme (url : String) : String :=
  let pre := url.data.takeWhile (· ≠ ':')
  if pre.length = url.data.length then ""
  else if schemeOk pre then String.mk (pre.map lcOf) else ""

/-- Models `urlparse(url).path`. -/
def urlparsePath (url : String) : String :=
  let rest := (netlocSplit (stripScheme url.data)).2
  String.mk ((rest.takeWhile (· ≠ '#')).takeWhile (· ≠ '?'))

/-! ## Product URL Validator (`is_valid_product_url`, app/scraper.py:144-181) -/

/-- Blocklist of path keywords from `is_valid_product_url`. -/
def invalid_patterns : List String :=
  ["collections", "pages", "blogs", "cart", "checkout",
   "account", "search", "admin", "api"]

/-- Path of the URL, stripped of surrounding slashes and split on `/`
(models `parsed.path.strip('/').split('/')`). -/
def pathParts (url : String) : List String :=
  splitStr (stripSlashes (urlparsePath url)) "/"

/-- Translation of `is_valid_product_url` (app/scraper.py:144-181). -/
def is_valid_product_url (url : String) : Bool :=
  if url = "" then false
  else if ¬ strHasSub url "/products/" then false
  else
    match pathParts url with
    | p0 :: p1 :: _ =>
      if p0 ≠ "products" then false
      else if p1 = "" ∨ p1.length < 2 ∨ p1.length > 100 then false
      else if invalid_patterns.any (fun pat => strHasSub (lcS url) pat) then false
      else true
    | _ => false

/-- The validation rules exactly as claim C3 words them (for comparison with
the source function): non-empty URL, path's first segment `products` with a
second segment present of length in `[2,100]`, and no blocklist word in the
lowercased URL.  Note the absence of the source's `'/products/' in url`
substring requirement. -/
def product_url_rules (url : String) : Bool :=
  if url = "" then false
  else
    match pathParts url with
    | p0 :: p1 :: _ =>
      if p0 = "products" ∧ 2 ≤ p1.length ∧ p1.length ≤ 100 ∧
          ¬ invalid_patterns.any (fun pat => strHasSub (lcS url) pat) then true
      else false
    | _ => false

/-! ## Model of the parsed HTML document (the BeautifulSoup tree)

The extraction functions all consume an already-parsed tree (`soup`); HTML
parsing itself is I/O done by the collaborator `get_soup` and is out of
scope.  An element node carries its tag name, attribute list and children;
a text node carries a string (a `NavigableString`).  `NodeList` is a
specialised child list so that all tree traversals are structurally
recursive (and hence kernel-evaluable). -/

mutual
inductive Node where
  | elem : String → List (String × String) → NodeList → Node
  | text : String → Node
inductive NodeList where
  | nil : NodeList
  | cons : Node → NodeList → NodeList
end

def NodeList.ofList : List Node → NodeList
  | [] => .nil
  | n :: ns => .cons n (NodeList.ofList ns)

mutual
/-- All strict descendants of a node, in document (pre-)order: the order in
which BeautifulSoup's `find_all`/`select` return matches. -/
def strictDesc : Node → List Node
  | .text _ => []
  | .elem _ _ cs => strictDescL cs
def strictDescL : NodeList → List Node
  | .nil => []
  | .cons n ns => (n :: strictDesc n) ++ strictDescL ns
end

mutual
/-- All descendant strings of a node, in document order (the stream behind
BeautifulSoup's `get_text`). -/
def textsOf : Node → List String
  | .text s => [s]
  | .elem _ _ cs => textsOfL cs
def textsOfL : NodeList → List String
  | .nil => []
  | .cons n ns => textsOf n ++ textsOfL ns
end

/-- Models `tag.get_text()` (default separator, no stripping). -/
def getTextPlain (n : Node) : String := joinStr "" (textsOf n)

/-- Models `tag.get_text(strip=True)`: each string stripped, empty results
dropped, joined with the empty separator. -/
def getTextStripped (n : Node) : String :=
  joinStr "" (((textsOf n).map pyStrip).filter (fun s => s ≠ ""))

/-- Attribute lookup on an element node. -/
def attrOf (n : Node) (key : String) : Option String :=
  match n with
  | .elem _ attrs _ => (attrs.find? (fun kv => kv.1 == key)).map (fun kv => kv.2)
  | .text _ => none

def isTagB (t : String) (n : Node) : Bool :=
  match n with
  | .elem tg _ _ => tg == t
  | .text _ => false

/-- Models `soup.find(t)`: first matching strict descendant in document order. -/
def findFirstTag (t : String) (n : Node) : Option Node :=
  (strictDesc n).find? (isTagB t)

/-- The href of an anchor element, when present: models matching
`find_all("a", href=True)`. -/
def anchorHref (n : Node) : Option String :=
  match n with
  | .elem tg attrs _ => if tg == "a" then (attrs.find? (fun kv => kv.1 == "href")).map (fun kv => kv.2) else none
  | .text _ => none

/-- All anchor elements carrying an href, in document order. -/
def anchorNodes (n : Node) : List Node :=
  (strictDesc n).filter (fun m => (anchorHref m).isSome)

/-- The hrefs of all anchors below a node, in document order. -/
def anchorHrefsOf (n : Node) : List String :=
  (strictDesc n).filterMap anchorHref

def hrefOf (n : Node) : String := (anchorHref n).getD ""

/-! ## Keyword → URL and platform → URL maps

Python dicts are modelled as insertion-ordered association lists; `k in d`
is `(lookupA d k).isSome` and `d[k] = v` (always for a fresh key in the
source) appends. -/

def lookupA : List (String × String) → String → Option String
  | [], _ => none
  | (k0, v0) :: rest, k => if k0 = k then some v0 else lookupA rest k

/-- Keys of the map, in insertion order. -/
def keysOf (m : List (String × String)) : List String := m.map Prod.fst

/-! ## Link Classifier (`find_links_with_keywords`, app/scraper.py:183-216) -/

/-- The per-anchor keyword loop (app/scraper.py:202-210).  For each keyword
in order: if it is unresolved and occurs in the anchor's lowercased text or
lowercased href, the href is stored — prefixed with the stripped base URL
when it starts with `/`, verbatim when it starts with `http` — and the loop
breaks; an href starting with neither is skipped (`continue`, the
`mailto:`/`tel:` case), moving on to the next keyword. -/
def linkKeywordScan (base_url lowText lowHref hrefOrig : String) :
    List String → List (String × String) → List (String × String)
  | [], links => links
  | kw :: rest, links =>
    if (lookupA links kw).isNone ∧ (strHasSub lowText kw ∨ strHasSub lowHref kw) then
      if strStarts hrefOrig "/" then
        links ++ [(kw, stripSlashes base_url ++ hrefOrig)]
      else if ¬ strStarts hrefOrig "http" then
        linkKeywordScan base_url lowText lowHref hrefOrig rest links
      else
        links ++ [(kw, hrefOrig)]
    else
      linkKeywordScan base_url lowText lowHref hrefOrig rest links

/-- Scan of one region: every anchor with an href, in document order. -/
def scanAreaLinks (base_url : String) (kws : List String) (area : Node)
    (links : List (String × String)) : List (String × String) :=
  (anchorNodes area).foldl
    (fun l a => linkKeywordScan base_url (lcS (getTextStripped a)) (lcS (hrefOf a)) (hrefOf a) kws l)
    links

/-- The region loop with its early exit (app/scraper.py:194-214): after a
region is scanned, if `len(links) == len(keywords)` and the region is not
the whole document, scanning stops.  (BeautifulSoup tags are always truthy,
so the source's `if not area: continue` never fires and is not modelled;
`area != soup` is the flag, as a footer/nav/header tag is never structurally
equal to the whole `[document]`.) -/
def linkAreaLoop (base_url : String) (kws : List String) :
    List (Node × Bool) → List (String × String) → List (String × String)
  | [], links => links
  | (area, isSoup) :: rest, links =>
    let links2 := scanAreaLinks base_url kws area links
    if links2.length = kws.length ∧ isSoup = false then links2
    else linkAreaLoop base_url kws rest links2

/-- Models `soup.find_all(['nav', 'header', 'footer'])` (document order). -/
def navsOf (soup : Node) : List Node :=
  (strictDesc soup).filter
    (fun m => isTagB "nav" m || isTagB "header" m || isTagB "footer" m)

/-- The prioritized region list of the Link Classifier: `[footer]` when a
footer exists, then every nav/header/footer element in document order, then
the whole document (flagged as final). -/
def linkAreas (soup : Node) : List (Node × Bool) :=
  ((findFirstTag "footer" soup).toList ++ navsOf soup).map (fun a => (a, false)) ++
    [(soup, true)]

/-- Translation of `find_links_with_keywords` (app/scraper.py:183-216). -/
def find_links_with_keywords (soup : Node) (base_url : String) (keywords : List String) :
    List (String × String) :=
  linkAreaLoop base_url keywords (linkAreas soup) []

/-! ## Social Handle Extractor (`extract_social_handles`, app/scraper.py:218-257) -/

/-- The fixed platform table, in the source's dict order. -/
def social_platforms : List (String × List String) :=
  [("instagram", ["instagram.com", "instagr.am"]),
   ("facebook", ["facebook.com", "fb.com"]),
   ("twitter", ["twitter.com", "x.com"]),
   ("tiktok", ["tiktok.com"]),
   ("youtube", ["youtube.com", "youtu.be"]),
   ("pinterest", ["pinterest.com"]),
   ("linkedin", ["linkedin.com"]),
   ("snapchat", ["snapchat.com"])]

/-- The per-anchor platform loop (app/scraper.py:247-251): the first
platform, in table order, that is still unresolved and whose configured
domain substrings hit the lowercased href receives the anchor's raw href,
and the loop breaks. -/
def socialAnchorScan (hrefOrig : String) :
    List (String × List String) → List (String × String) → List (String × String)
  | [], handles => handles
  | (platform, domains) :: rest, handles =>
    if (lookupA handles platform).isNone then
      if domains.any (fun d => strHasSub (lcS hrefOrig) d) then
        handles ++ [(platform, hrefOrig)]
      else socialAnchorScan hrefOrig rest handles
    else socialAnchorScan hrefOrig rest handles

/-- Scan of one region for social handles. -/
def scanAreaSocial (area : Node) (handles : List (String × String)) :
    List (String × String) :=
  (anchorNodes area).foldl (fun h a => socialAnchorScan (hrefOf a) social_platforms h) handles

/-- The region loop of the social extractor (app/scraper.py:243-255): after
any region other than the whole document, if the accumulated handle map is
non-empty, scanning stops (`if handles and area != soup: break`). -/
def socialAreaLoop : List (Node × Bool) → List (String × String) → List (String × String)
  | [], handles => handles
  | (area, isSoup) :: rest, handles =>
    let h2 := scanAreaSocial area handles
    if h2 ≠ [] ∧ isSoup = false then h2
    else socialAreaLoop rest h2

/-- The prioritized region list of the social extractor: the first footer
(if any), the first header (if any), then the whole document (final). -/
def socialAreas (soup : Node) : List (Node × Bool) :=
  ((findFirstTag "footer" soup).toList ++ (findFirstTag "header" soup).toList).map
    (fun a => (a, false)) ++ [(soup, true)]

/-- Translation of `extract_social_handles` (app/scraper.py:218-257). -/
def extract_social_handles (soup : Node) : List (String × String) :=
  socialAreaLoop (socialAreas soup) []

/-! ## Generic lemmas about maps, folds and the tree -/

theorem lookupA_append_some : ∀ (m ext : List (String × String)) (k v : String),
    lookupA m k = some v → lookupA (m ++ ext) k = some v
  | [], _, _, _, h => by simp [lookupA] at h
  | (k0, v0) :: rest, ext, k, v, h => by
    simp only [lookupA, List.cons_append] at h ⊢
    by_cases hk : k0 = k
    · rwa [if_pos hk] at h ⊢
    · rw [if_neg hk] at h ⊢
      exact lookupA_append_some rest ext k v h

theorem lookupA_mono_of_pre {links m : List (String × String)} {k v : String}
    (hp : links <+: m) (h : lookupA links k = some v) : lookupA m k = some v := by
  obtain ⟨t, rfl⟩ := hp
  exact lookupA_append_some links t k v h

theorem lookupA_append_single : ∀ (m : List (String × String)) (k0 v0 k v : String),
    lookupA (m ++ [(k0, v0)]) k = some v → lookupA m k = some v ∨ (k = k0 ∧ v = v0)
  | [], k0, v0, k, v, h => by
    simp only [lookupA, List.nil_append] at h
    by_cases hk : k0 = k
    · rw [if_pos hk] at h
      exact Or.inr ⟨hk.symm, (Option.some.injEq _ _ ▸ h).symm⟩
    · rw [if_neg hk] at h
      simp [lookupA] at h
  | (k1, v1) :: rest, k0, v0, k, v, h => by
    simp only [lookupA, List.cons_append] at h ⊢
    by_cases hk : k1 = k
    · rw [if_pos hk] at h ⊢
      exact Or.inl h
    · rw [if_neg hk] at h ⊢
      exact lookupA_append_single rest k0 v0 k v h

theorem lookupA_eq_none_iff : ∀ (m : List (String × String)) (k : String),
    lookupA m k = none ↔ k ∉ keysOf m
  | [], k => by simp [lookupA, keysOf]
  | (k0, v0) :: rest, k => by
    by_cases hk : k0 = k
    · subst hk
      simp [lookupA, keysOf]
    · simp only [lookupA, if_neg hk, keysOf, List.map_cons, List.mem_cons]
      rw [lookupA_eq_none_iff rest k]
      unfold keysOf
      constructor
      · rintro h (h1 | h2)
        · exact hk h1.symm
        · exact h h2
      · intro h h2
        exact h (Or.inr h2)

theorem lookupA_isSome_iff (m : List (String × String)) (k : String) :
    (lookupA m k).isSome = true ↔ k ∈ keysOf m := by
  rcases ho : lookupA m k with _ | v
  · have hn := (lookupA_eq_none_iff m k).mp ho
    simp [hn]
  · have hmem : k ∈ keysOf m := by
      by_contra hk
      rw [← lookupA_eq_none_iff] at hk
      simp [ho] at hk
    simp [hmem]

/-- Generic foldl invariant preservation. -/
theorem foldl_inv {M α : Type} (P : M → Prop) (step : M → α → M)
    (hstep : ∀ m a, P m → P (step m a)) :
    ∀ (l : List α) (m : M), P m → P (l.foldl step m)
  | [], _, h => h
  | a :: rest, m, h => foldl_inv P step hstep rest (step m a) (hstep m a h)

/-- Generic foldl prefix preservation for the append-only scans. -/
theorem foldl_extends {α : Type} (step : List (String × String) → α → List (String × String))
    (hstep : ∀ l a, l <+: step l a) :
    ∀ (l : List α) (links : List (String × String)), links <+: l.foldl step links
  | [], links => List.prefix_refl links
  | a :: rest, links => (hstep links a).trans (foldl_extends step hstep rest (step links a))

mutual
/-- Descendants of a descendant are descendants (document-tree transitivity). -/
theorem strictDesc_trans (n : Node) :
    ∀ m ∈ strictDesc n, ∀ k ∈ strictDesc m, k ∈ strictDesc n := by
  cases n with
  | text s => intro m hm; simp [strictDesc] at hm
  | elem t a cs =>
    intro m hm k hk
    exact strictDescL_trans cs m hm k hk
theorem strictDescL_trans (ns : NodeList) :
    ∀ m ∈ strictDescL ns, ∀ k ∈ strictDesc m, k ∈ strictDescL ns := by
  cases ns with
  | nil => intro m hm; simp [strictDescL] at hm
  | cons n rest =>
    intro m hm k hk
    simp only [strictDescL, List.cons_append, List.mem_cons, List.mem_append] at hm ⊢
    rcases hm with rfl | hm | hm
    · exact Or.inr (Or.inl hk)
    · exact Or.inr (Or.inl (strictDesc_trans n m hm k hk))
    · exact Or.inr (Or.inr (strictDescL_trans rest m hm k hk))
end

theorem hrefOf_mem_anchorHrefsOf {a n : Node} (ha : a ∈ anchorNodes n) :
    hrefOf a ∈ anchorHrefsOf n := by
  unfold anchorNodes at ha
  rw [List.mem_filter] at ha
  obtain ⟨hmem, hsome⟩ := ha
  rcases ho : anchorHref a with _ | href
  · rw [ho] at hsome; simp at hsome
  · unfold anchorHrefsOf
    rw [List.mem_filterMap]
    exact ⟨a, hmem, by simp [hrefOf, ho]⟩

theorem anchorHrefsOf_subset {soup m : Node} (hm : m ∈ strictDesc soup) :
    ∀ x ∈ anchorHrefsOf m, x ∈ anchorHrefsOf soup := by
  intro x hx
  unfold anchorHrefsOf at hx ⊢
  rw [List.mem_filterMap] at hx ⊢
  obtain ⟨a, ha, hax⟩ := hx
  exact ⟨a, strictDesc_trans soup m hm a ha, hax⟩

/-! ## Lemmas about the Link Classifier scan -/

theorem linkKeywordScan_extends (base lt lh ho : String) :
    ∀ (kwl : List String) (links : List (String × String)),
      links <+: linkKeywordScan base lt lh ho kwl links
  | [], links => List.prefix_refl links
  | _ :: rest, links => by
    simp only [linkKeywordScan]
    split
    · split
      · exact List.prefix_append _ _
      · split
        · exact linkKeywordScan_extends base lt lh ho rest links
        · exact List.prefix_append _ _
    · exact linkKeywordScan_extends base lt lh ho rest links

theorem scanAreaLinks_extends (base : String) (kws : List String) (area : Node)
    (links : List (String × String)) : links <+: scanAreaLinks base kws area links :=
  foldl_extends _ (fun l _a => linkKeywordScan_extends base _ _ _ kws l) (anchorNodes area) links

theorem linkAreaLoop_extends (base : String) (kws : List String) :
    ∀ (areas : List (Node × Bool)) (links : List (String × String)),
      links <+: linkAreaLoop base kws areas links
  | [], links => List.prefix_refl links
  | (area, _) :: rest, links => by
    simp only [linkAreaLoop]
    split
    · exact scanAreaLinks_extends base kws area links
    · exact (scanAreaLinks_extends base kws area links).trans
        (linkAreaLoop_extends base kws rest _)

theorem linkKeywordScan_keys (base lt lh ho : String) (kws : List String) :
    ∀ (kwl : List String) (links : List (String × String)),
      (∀ kw ∈ kwl, kw ∈ kws) →
      (keysOf links).Nodup ∧ (∀ k ∈ keysOf links, k ∈ kws) →
      (keysOf (linkKeywordScan base lt lh ho kwl links)).Nodup ∧
        (∀ k ∈ keysOf (linkKeywordScan base lt lh ho kwl links), k ∈ kws)
  | [], _, _, h => h
  | kw0 :: rest, links, hkwl, h => by
    have hrec := linkKeywordScan_keys base lt lh ho kws rest links
      (fun k hk => hkwl k (List.mem_cons_of_mem kw0 hk)) h
    simp only [linkKeywordScan]
    split
    case isTrue c1 =>
      have hnew : kw0 ∉ keysOf links :=
        (lookupA_eq_none_iff links kw0).mp (Option.isNone_iff_eq_none.mp c1.1)
      have happend : ∀ v : String,
          (keysOf (links ++ [(kw0, v)])).Nodup ∧
            (∀ k ∈ keysOf (links ++ [(kw0, v)]), k ∈ kws) := by
        intro v
        constructor
        · simp only [keysOf, List.map_append, List.map_cons, List.map_nil]
          rw [List.nodup_append]
          refine ⟨h.1, List.nodup_singleton kw0, ?_⟩
          intro x hx hy
          exact hnew (by rwa [List.mem_singleton.mp hy] at hx)
        · intro k hk
          simp only [keysOf, List.map_append, List.map_cons, List.map_nil,
            List.mem_append, List.mem_singleton] at hk
          rcases hk with hk | rfl
          · exact h.2 k hk
          · exact hkwl k (List.mem_cons_self k rest)
      split
      · exact happend _
      · split
        · exact hrec
        · exact happend _
    case isFalse => exact hrec

theorem scanAreaLinks_keys (base : String) (kws : List String) (area : Node)
    (links : List (String × String))
    (h : (keysOf links).Nodup ∧ (∀ k ∈ keysOf links, k ∈ kws)) :
    (keysOf (scanAreaLinks base kws area links)).Nodup ∧
      (∀ k ∈ keysOf (scanAreaLinks base kws area links), k ∈ kws) :=
  foldl_inv (fun m => (keysOf m).Nodup ∧ (∀ k ∈ keysOf m, k ∈ kws)) _
    (fun m _a hm => linkKeywordScan_keys base _ _ _ kws kws m (fun _ hk => hk) hm)
    (anchorNodes area) links h

theorem linkKeywordScan_lookup (base lt lh ho : String) :
    ∀ (kwl : List String) (links : List (String × String)) (kw v : String),
      lookupA (linkKeywordScan base lt lh ho kwl links) kw = some v →
      lookupA links kw = some v ∨
        (strStarts ho "/" = true ∧ v = stripSlashes base ++ ho) ∨
        (strStarts ho "http" = true ∧ v = ho)
  | [], _, _, _, h => Or.inl h
  | kw0 :: rest, links, kw, v, h => by
    simp only [linkKeywordScan] at h
    split at h
    · split at h
      case isTrue c2 =>
        rcases lookupA_append_single links kw0 _ kw v h with h1 | ⟨_, rfl⟩
        · exact Or.inl h1
        · exact Or.inr (Or.inl ⟨c2, rfl⟩)
      case isFalse c2 =>
        split at h
        · exact linkKeywordScan_lookup base lt lh ho rest links kw v h
        case isFalse c3 =>
          rcases lookupA_append_single links kw0 _ kw v h with h1 | ⟨_, rfl⟩
          · exact Or.inl h1
          · exact Or.inr (Or.inr ⟨not_not.mp c3, rfl⟩)
    · exact linkKeywordScan_lookup base lt lh ho rest links kw v h

theorem scanAreaLinksAux_lookup (base : String) (kws : List String) :
    ∀ (l : List Node) (links : List (String × String)) (kw v : String),
      lookupA (l.foldl (fun m a =>
        linkKeywordScan base (lcS (getTextStripped a)) (lcS (hrefOf a)) (hrefOf a) kws m)
        links) kw = some v →
      lookupA links kw = some v ∨
        ∃ a ∈ l, (strStarts (hrefOf a) "/" = true ∧ v = stripSlashes base ++ hrefOf a) ∨
          (strStarts (hrefOf a) "http" = true ∧ v = hrefOf a)
  | [], _, _, _, h => Or.inl h
  | a :: rest, links, kw, v, h => by
    rw [List.foldl_cons] at h
    rcases scanAreaLinksAux_lookup base kws rest _ kw v h with h1 | ⟨b, hb, hshape⟩
    · rcases linkKeywordScan_lookup base _ _ _ kws links kw v h1 with h2 | h2 | h2
      · exact Or.inl h2
      · exact Or.inr ⟨a, List.mem_cons_self a rest, Or.inl h2⟩
      · exact Or.inr ⟨a, List.mem_cons_self a rest, Or.inr h2⟩
    · exact Or.inr ⟨b, List.mem_cons_of_mem a hb, hshape⟩

theorem linkAreaLoop_lookup (base : String) (kws : List String) :
    ∀ (areas : List (Node × Bool)) (links : List (String × String)) (kw v : String),
      lookupA (linkAreaLoop base kws areas links) kw = some v →
      lookupA links kw = some v ∨
        ∃ ab ∈ areas, ∃ a ∈ anchorNodes ab.1,
          (strStarts (hrefOf a) "/" = true ∧ v = stripSlashes base ++ hrefOf a) ∨
          (strStarts (hrefOf a) "http" = true ∧ v = hrefOf a)
  | [], _, _, _, h => Or.inl h
  | (area, isSoup) :: rest, links, kw, v, h => by
    simp only [linkAreaLoop] at h
    have harea : lookupA (scanAreaLinks base kws area links) kw = some v →
        lookupA links kw = some v ∨
          ∃ ab ∈ (area, isSoup) :: rest, ∃ a ∈ anchorNodes ab.1,
            (strStarts (hrefOf a) "/" = true ∧ v = stripSlashes base ++ hrefOf a) ∨
            (strStarts (hrefOf a) "http" = true ∧ v = hrefOf a) := by
      intro h1
      rcases scanAreaLinksAux_lookup base kws (anchorNodes area) links kw v h1 with h2 | ⟨a, ha, hs⟩
      · exact Or.inl h2
      · exact Or.inr ⟨(area, isSoup), List.mem_cons_self _ rest, a, ha, hs⟩
    split at h
    · exact harea h
    · rcases linkAreaLoop_lookup base kws rest _ kw v h with h1 | ⟨ab, hab, hs⟩
      · exact harea h1
      · exact Or.inr ⟨ab, List.mem_cons_of_mem _ hab, hs⟩

theorem linkAreas_sub {soup : Node} {ab : Node × Bool} (hab : ab ∈ linkAreas soup) :
    ab.1 = soup ∨ ab.1 ∈ strictDesc soup := by
  unfold linkAreas at hab
  rcases List.mem_append.mp hab with h | h
  · right
    obtain ⟨a, ha, rfl⟩ := List.mem_map.mp h
    rcases List.mem_append.mp ha with h2 | h2
    · rcases hf : findFirstTag "footer" soup with _ | f
      · rw [hf] at h2; simp [Option.toList] at h2
      · rw [hf] at h2
        simp only [Option.toList, List.mem_singleton] at h2
        subst h2
        exact List.mem_of_find?_eq_some hf
    · exact (List.mem_filter.mp h2).1
  · left
    rw [List.mem_singleton.mp h]

/-! ## Lemmas about the Social Handle Extractor scan -/

theorem socialAnchorScan_lookup (ho : String) :
    ∀ (pl : List (String × List String)) (handles : List (String × String)) (p v : String),
      lookupA (socialAnchorScan ho pl handles) p = some v →
      lookupA handles p = some v ∨ v = ho
  | [], _, _, _, h => Or.inl h
  | (pf, doms) :: rest, handles, p, v, h => by
    simp only [socialAnchorScan] at h
    split at h
    · split at h
      · rcases lookupA_append_single handles pf _ p v h with h1 | ⟨_, rfl⟩
        · exact Or.inl h1
        · exact Or.inr rfl
      · exact socialAnchorScan_lookup ho rest handles p v h
    · exact socialAnchorScan_lookup ho rest handles p v h

theorem scanAreaSocialAux_lookup :
    ∀ (l : List Node) (handles : List (String × String)) (p v : String),
      lookupA (l.foldl (fun h a => socialAnchorScan (hrefOf a) social_platforms h) handles)
        p = some v →
      lookupA handles p = some v ∨ ∃ a ∈ l, v = hrefOf a
  | [], _, _, _, h => Or.inl h
  | a :: rest, handles, p, v, h => by
    rw [List.foldl_cons] at h
    rcases scanAreaSocialAux_lookup rest _ p v h with h1 | ⟨b, hb, rfl⟩
    · rcases socialAnchorScan_lookup (hrefOf a) social_platforms handles p v h1 with h2 | rfl
      · exact Or.inl h2
      · exact Or.inr ⟨a, List.mem_cons_self a rest, rfl⟩
    · exact Or.inr ⟨b, List.mem_cons_of_mem a hb, rfl⟩

theorem socialAreaLoop_lookup :
    ∀ (areas : List (Node × Bool)) (handles : List (String × String)) (p v : String),
      lookupA (socialAreaLoop areas handles) p = some v →
      lookupA handles p = some v ∨ ∃ ab ∈ areas, ∃ a ∈ anchorNodes ab.1, v = hrefOf a
  | [], _, _, _, h => Or.inl h
  | (area, isSoup) :: rest, handles, p, v, h => by
    simp only [socialAreaLoop] at h
    have harea : lookupA (scanAreaSocial area handles) p = some v →
        lookupA handles p = some v ∨
          ∃ ab ∈ (area, isSoup) :: rest, ∃ a ∈ anchorNodes ab.1, v = hrefOf a := by
      intro h1
      rcases scanAreaSocialAux_lookup (anchorNodes area) handles p v h1 with h2 | ⟨a, ha, rfl⟩
      · exact Or.inl h2
      · exact Or.inr ⟨(area, isSoup), List.mem_cons_self _ rest, a, ha, rfl⟩
    split at h
    · exact harea h
    · rcases socialAreaLoop_lookup rest _ p v h with h1 | ⟨ab, hab, hs⟩
      · exact harea h1
      · exact Or.inr ⟨ab, List.mem_cons_of_mem _ hab, hs⟩

theorem socialAreas_sub {soup : Node} {ab : Node × Bool} (hab : ab ∈ socialAreas soup) :
    ab.1 = soup ∨ ab.1 ∈ strictDesc soup := by
  unfold socialAreas at hab
  rcases List.mem_append.mp hab with h | h
  · right
    obtain ⟨a, ha, rfl⟩ := List.mem_map.mp h
    rcases List.mem_append.mp ha with h2 | h2
    · rcases hf : findFirstTag "footer" soup with _ | f
      · rw [hf] at h2; simp [Option.toList] at h2
      · rw [hf] at h2
        simp only [Option.toList, List.mem_singleton] at h2
        subst h2
        exact List.mem_of_find?_eq_some hf
    · rcases hh : findFirstTag "header" soup with _ | hd
      · rw [hh] at h2; simp [Option.toList] at h2
      · rw [hh] at h2
        simp only [Option.toList, List.mem_singleton] at h2
        subst h2
        exact List.mem_of_find?_eq_some hh
  · left
    rw [List.mem_singleton.mp h]

/-! ## Claim C3 -/

/-- Counterexample to claim C3: the URL `"products/ab"` (a relative URL whose
path has first segment `products` and a two-character handle) satisfies every
condition listed by the claim, yet `is_valid_product_url` returns `false`,
because the source additionally requires the substring `"/products/"` to
occur in the URL (app/scraper.py:152) and `"products/ab"` has no slash
before `products`. -/
theorem C3_counterexample :
    product_url_rules "products/ab" = true ∧
    is_valid_product_url "products/ab" = false := by
  constructor <;> decide

/-- Claim C3, amended: `is_valid_product_url` is a pure boolean function that
returns true exactly when the URL contains the substring `"/products/"` AND
all conditions listed by the claim hold (non-empty URL; path's first segment
`products` with a second segment present whose length is in `[2,100]`; no
blocklist word in the lowercased URL).  In particular it returns false for
the empty string, `"/collections/x"`, `"/products/"`, `"/products/"`
followed by a 101-character handle, and `"/products/ab/admin"`. -/
theorem C3_product_url_validator :
    (∀ url : String,
      is_valid_product_url url = (strHasSub url "/products/" && product_url_rules url)) ∧
    is_valid_product_url "" = false ∧
    is_valid_product_url "/collections/x" = false ∧
    is_valid_product_url "/products/" = false ∧
    is_valid_product_url ("/products/" ++ String.mk (List.replicate 101 'a')) = false ∧
    is_valid_product_url "/products/ab/admin" = false := by
  refine ⟨?_, by decide, by decide, by decide, by decide, by decide⟩
  intro url
  unfold is_valid_product_url product_url_rules
  by_cases h0 : url = ""
  · subst h0; decide
  · rw [if_neg h0, if_neg h0]
    by_cases h1 : strHasSub url "/products/"
    · rw [if_neg (by simp [h1]), h1, Bool.true_and]
      rcases hp : pathParts url with _ | ⟨p0, _ | ⟨p1, rest⟩⟩ <;> simp only [hp]
      by_cases h2 : p0 = "products"
      · subst h2
        rw [if_neg (by simp)]
        by_cases hl2 : 2 ≤ p1.length
        · by_cases hl100 : p1.length ≤ 100
          · rw [if_neg (by
              rintro (rfl | hx | hx)
              · exact absurd hl2 (by decide)
              · omega
              · omega)]
            by_cases hany : invalid_patterns.any (fun pat => strHasSub (lcS url) pat)
            · rw [if_pos hany, if_neg (by tauto)]
            · rw [if_neg (by simp [hany]), if_pos ⟨rfl, hl2, hl100, by simp [hany]⟩]
          · rw [if_pos (by right; right; omega), if_neg (by tauto)]
        · rw [if_pos (by right; left; omega), if_neg (by tauto)]
      · rw [if_pos (by simp [h2]), if_neg (by tauto)]
    · rw [if_pos (by simp [h1])]
      simp [h1]

/-! ## Claim C2 -/

def c2footer : Node :=
  .elem "footer" [] (.ofList [.elem "a" [("href", "https://instagram.com/b")] .nil])

def c2header : Node :=
  .elem "header" [] (.ofList [.elem "a" [("href", "https://facebook.com/b")] .nil])

def c2doc : Node := .elem "html" [] (.ofList [c2footer, c2header])

/-- Counterexample to claim C2: in a document whose footer holds an Instagram
link and whose header holds a Facebook link, the extractor returns only the
footer's handle — the header region would have yielded `facebook` (second
conjunct) but is never scanned, because the loop breaks as soon as a
non-final region leaves the handle map non-empty (app/scraper.py:254-255),
contradicting the claim that footer and header are tried together. -/
theorem C2_counterexample :
    extract_social_handles c2doc = [("instagram", "https://instagram.com/b")] ∧
    lookupA (scanAreaSocial c2header []) "facebook" = some "https://facebook.com/b" ∧
    lookupA (extract_social_handles c2doc) "facebook" = none :=
  ⟨by decide, by decide, by decide⟩

/-- Claim C2, amended: the regions are tried in order footer, header, whole
document, and the loop stops after any non-final region that leaves the
accumulated handle map non-empty.  In particular, for every document having
both a footer and a header, if the footer alone yields at least one handle
then the result is exactly the footer scan — the header (and the whole
document) are never scanned. -/
theorem C2_social_footer_short_circuit :
    ∀ (soup f h : Node),
      findFirstTag "footer" soup = some f →
      findFirstTag "header" soup = some h →
      scanAreaSocial f [] ≠ [] →
      extract_social_handles soup = scanAreaSocial f [] := by
  intro soup f h hf hh hne
  unfold extract_social_handles socialAreas
  rw [hf, hh]
  simp only [Option.toList, List.singleton_append, List.map_cons, List.map_nil,
    List.cons_append, List.nil_append]
  simp only [socialAreaLoop]
  rw [if_pos ⟨hne, trivial⟩]

theorem C2_social_footer_short_circuit_witness :
    extract_social_handles c2doc = scanAreaSocial c2footer [] :=
  C2_social_footer_short_circuit c2doc c2footer c2header rfl rfl (by decide)

/-! ## Claim C7 -/

/-- Claim C7, confirmed: throughout the Link Classifier's region scan the
keyword→URL map is write-once — a binding made by an earlier
(higher-priority) region survives every later anchor and region unchanged —
and if after scanning a non-final region every requested keyword has a URL,
no further region is scanned: the loop returns that region's result
directly, independent of all remaining regions. -/
theorem C7_link_map_write_once_and_early_exit :
    (∀ (base : String) (kws : List String) (areas : List (Node × Bool))
        (links : List (String × String)) (kw v : String),
        lookupA links kw = some v →
        lookupA (linkAreaLoop base kws areas links) kw = some v) ∧
    (∀ (base : String) (kws : List String) (area : Node) (rest : List (Node × Bool))
        (links : List (String × String)),
        kws.Nodup →
        (keysOf links).Nodup → (∀ k ∈ keysOf links, k ∈ kws) →
        (∀ kw ∈ kws, (lookupA (scanAreaLinks base kws area links) kw).isSome = true) →
        linkAreaLoop base kws ((area, false) :: rest) links =
          scanAreaLinks base kws area links) := by
  constructor
  · intro base kws areas links kw v h
    exact lookupA_mono_of_pre (linkAreaLoop_extends base kws areas links) h
  · intro base kws area rest links hkws hnd hsub hall
    have hinv := scanAreaLinks_keys base kws area links ⟨hnd, hsub⟩
    have hlen : (scanAreaLinks base kws area links).length = kws.length := by
      have h1 : (keysOf (scanAreaLinks base kws area links)).length ≤ kws.length :=
        (hinv.1.subperm hinv.2).length_le
      have h2 : kws.length ≤ (keysOf (scanAreaLinks base kws area links)).length :=
        (hkws.subperm (fun kw hkw => (lookupA_isSome_iff _ kw).mp (hall kw hkw))).length_le
      have h3 : (keysOf (scanAreaLinks base kws area links)).length =
          (scanAreaLinks base kws area links).length := by simp [keysOf]
      omega
    simp only [linkAreaLoop]
    rw [if_pos ⟨hlen, trivial⟩]

def c7footer : Node :=
  .elem "footer" [] (.ofList [.elem "a" [("href", "/privacy")] (.ofList [.text "Privacy Policy"])])

theorem C7_link_map_write_once_and_early_exit_witness :
    lookupA (linkAreaLoop "https://brandx.com" ["privacy"] [(c7footer, false)]
        [("privacy", "https://kept.example/p")]) "privacy" =
      some "https://kept.example/p" ∧
    linkAreaLoop "https://brandx.com" ["privacy"] [(c7footer, false), (c7footer, false)] [] =
      scanAreaLinks "https://brandx.com" ["privacy"] c7footer [] :=
  ⟨C7_link_map_write_once_and_early_exit.1 "https://brandx.com" ["privacy"]
      [(c7footer, false)] [("privacy", "https://kept.example/p")] "privacy"
      "https://kept.example/p" (by decide),
    C7_link_map_write_once_and_early_exit.2 "https://brandx.com" ["privacy"] c7footer
      [(c7footer, false)] [] (by decide) (by decide) (by decide) (by decide)⟩

/-! ## Claim C6 -/

def c6exdoc : Node :=
  .elem "html" [] (.ofList [.elem "footer" []
    (.ofList [.elem "a" [("href", "/privacy")] (.ofList [.text "Privacy Policy"])])])

def c6xdoc : Node :=
  .elem "html" [] (.ofList [.elem "footer" []
    (.ofList [.elem "a" [("href", "httpx://evil.example")] (.ofList [.text "Privacy Policy"])])])

/-- Counterexample to claim C6: the source accepts any href that merely
starts with the four characters `http` (app/scraper.py:207), so an anchor
whose href has the non-http(s) scheme `httpx` IS considered a match and is
stored verbatim, contradicting the claim that anchors with non-http(s)
schemes are never a match. -/
theorem C6_counterexample :
    find_links_with_keywords c6xdoc "https://brandx.com" ["privacy"] =
      [("privacy", "httpx://evil.example")] ∧
    urlparseScheme "httpx://evil.example" = "httpx" :=
  ⟨by decide, by decide⟩

/-- Claim C6, amended: every stored value of the Link Classifier comes from
some anchor href of the document, either a `/`-prefixed href concatenated
onto the stripped base URL, or a href starting with the literal prefix
`http` stored verbatim.  Hence `mailto:`/`tel:` anchors are never a match
(their hrefs start with neither), but a scheme merely beginning with `http`
(such as `httpx:`) is accepted.  The spec's concrete example holds: a footer
anchor "Privacy Policy" → `/privacy` with keyword list `["privacy"]` yields
`privacy ↦ <base>/privacy`. -/
theorem C6_link_resolution :
    find_links_with_keywords c6exdoc "https://brandx.com" ["privacy"] =
      [("privacy", "https://brandx.com/privacy")] ∧
    (∀ (soup : Node) (base : String) (kws : List String) (kw v : String),
      lookupA (find_links_with_keywords soup base kws) kw = some v →
      ∃ href ∈ anchorHrefsOf soup,
        (strStarts href "/" = true ∧ v = stripSlashes base ++ href) ∨
        (strStarts href "http" = true ∧ v = href)) := by
  constructor
  · decide
  · intro soup base kws kw v h
    unfold find_links_with_keywords at h
    rcases linkAreaLoop_lookup base kws (linkAreas soup) [] kw v h with h1 | ⟨ab, hab, a, ha, hs⟩
    · simp [lookupA] at h1
    · have hhref : hrefOf a ∈ anchorHrefsOf soup := by
        rcases linkAreas_sub hab with heq | hmem
        · rw [← heq]
          exact hrefOf_mem_anchorHrefsOf ha
        · exact anchorHrefsOf_subset hmem _ (hrefOf_mem_anchorHrefsOf ha)
      exact ⟨hrefOf a, hhref, hs⟩

theorem C6_link_resolution_witness :
    ∃ href ∈ anchorHrefsOf c6exdoc,
      (strStarts href "/" = true ∧
        "https://brandx.com/privacy" = stripSlashes "https://brandx.com" ++ href) ∨
      (strStarts href "http" = true ∧ "https://brandx.com/privacy" = href) :=
  C6_link_resolution.2 c6exdoc "https://brandx.com" ["privacy"] "privacy"
    "https://brandx.com/privacy" (by decide)

/-! ## Claim C5 -/

/-- Modelled from the spec's invariant wording "every URL field is a
syntactically valid absolute URL": an `http`/`https` scheme followed by a
non-empty host. -/
def isValidAbsoluteUrl (s : String) : Bool :=
  (strStarts s "http://" || strStarts s "https://") && urlparseNetloc s ≠ ""

def c5doc : Node :=
  .elem "html" [] (.ofList [.elem "footer" []
    (.ofList [.elem "a" [("href", "instagram.com/brandx")] .nil])])

def c5wdoc : Node :=
  .elem "html" [] (.ofList [.elem "footer" []
    (.ofList [.elem "a" [("href", "https://instagram.com/b")] .nil])])

/-- Counterexample to claim C5: the Social Handle Extractor stores the raw
anchor href (app/scraper.py:250) without resolving it against any base URL,
so a relative href such as `instagram.com/brandx` — which matches the
`instagram.com` domain substring — is returned verbatim and is not a
syntactically valid absolute URL. -/
theorem C5_counterexample :
    extract_social_handles c5doc = [("instagram", "instagram.com/brandx")] ∧
    isValidAbsoluteUrl "instagram.com/brandx" = false :=
  ⟨by decide, by decide⟩

/-- Claim C5, amended: every value the Social Handle Extractor returns is
the raw href of some anchor of the document; consequently the values are
syntactically valid absolute URLs only when the matching anchors' hrefs are.
(At assembly time, URL validity of the output record is enforced by the
schema's `HttpUrl` fields rejecting the request, not by the extractors.) -/
theorem C5_social_values_are_anchor_hrefs :
    (∀ (soup : Node) (p v : String),
      lookupA (extract_social_handles soup) p = some v → v ∈ anchorHrefsOf soup) ∧
    (∀ soup : Node, (∀ x ∈ anchorHrefsOf soup, isValidAbsoluteUrl x = true) →
      ∀ p v, lookupA (extract_social_handles soup) p = some v →
        isValidAbsoluteUrl v = true) := by
  have hmain : ∀ (soup : Node) (p v : String),
      lookupA (extract_social_handles soup) p = some v → v ∈ anchorHrefsOf soup := by
    intro soup p v h
    unfold extract_social_handles at h
    rcases socialAreaLoop_lookup (socialAreas soup) [] p v h with h1 | ⟨ab, hab, a, ha, rfl⟩
    · simp [lookupA] at h1
    · rcases socialAreas_sub hab with heq | hmem
      · rw [← heq]
        exact hrefOf_mem_anchorHrefsOf ha
      · exact anchorHrefsOf_subset hmem _ (hrefOf_mem_anchorHrefsOf ha)
  exact ⟨hmain, fun soup hall p v h => hall v (hmain soup p v h)⟩

theorem C5_social_values_are_anchor_hrefs_witness :
    "https://instagram.com/b" ∈ anchorHrefsOf c5wdoc ∧
    isValidAbsoluteUrl "https://instagram.com/b" = true :=
  ⟨C5_social_values_are_anchor_hrefs.1 c5wdoc "instagram" "https://instagram.com/b" (by decide),
    C5_social_values_are_anchor_hrefs.2 c5wdoc (by decide) "instagram"
      "https://instagram.com/b" (by decide)⟩

/-! ## Competitor Discovery (app/competitor_analysis.py:79-172)

A Tavily search result is its `url`, `title` and `content` fields; the
source reads them with `result.get(...)`, treating a missing or empty url
as falsy, so `""` models both.  The accumulating Python `set` of root
domains is modelled as an insertion-ordered duplicate-free list. -/

structure SearchResult where
  url : String
  title : String
  content : String

/-- The fixed exclusion set of `extract_competitors_from_results`
(app/competitor_analysis.py:85-92); iteration order of the Python set is
irrelevant, as it is only consulted through `any`. -/
def excluded_domains : List String :=
  ["facebook", "instagram", "youtube", "pinterest", "twitter", "x.com",
   "linkedin", "wikipedia", "amazon", "myntra", "flipkart", "forbes",
   "inc.com", "reddit", "quora", "medium", "techcrunch", "crunchbase",
   "bloomberg", "reuters", "google", "bing", "yahoo", "shopify",
   "squarespace", "wix", "wordpress", "github", "stackoverflow",
   "aliexpress", "alibaba", "ebay", "etsy", "tiktok", "snapchat"]

def suspicious_patterns : List String :=
  ["blog.", "news.", "wiki.", "forum.", "support.", "help.",
   "api.", "dev.", "docs.", "cdn.", "static.", "img.",
   ".blogspot.", ".wordpress.", ".tumblr.", ".medium."]

def common_tlds : List String :=
  ["com", "co", "net", "org", "in", "co.in", "co.uk", "ca",
   "au", "de", "fr", "it", "es", "br", "mx", "jp", "kr"]

def brand_indicators : List String :=
  ["shop", "store", "buy", "collection", "product", "brand",
   "fashion", "clothing", "apparel", "accessories", "jewelry"]

/-- The last two dot-separated labels, joined (`'.'.join(parts[-2:])`). -/
def lastTwoLabels (parts : List String) : String :=
  joinStr "." (parts.drop (parts.length - 2))

/-- Translation of `is_legitimate_brand_domain`
(app/competitor_analysis.py:132-172). -/
def is_legitimate_brand_domain (domain title content : String) : Bool :=
  if suspicious_patterns.any (fun p => strHasSub domain p) then false
  else
    let domain_parts := splitStr domain "."
    if domain_parts.length < 2 then false
    else
      let tld := lastTwoLabels domain_parts
      if ¬ common_tlds.any (fun t => strEnds tld t) then false
      else
        let content_lower := lcS (title ++ " " ++ content)
        brand_indicators.any (fun ind => strHasSub content_lower ind)

/-- Insertion into the ordered model of a Python set (`competitors.add`). -/
def setAddStr (s : List String) (x : String) : List String :=
  if x ∈ s then s else s ++ [x]

/-- Translation of `extract_competitors_from_results`
(app/competitor_analysis.py:79-130).  Nothing in the loop body can raise in
this model, so the per-result `try/except` has no counterpart. -/
def extract_competitors_from_results (search_results : List SearchResult)
    (brand_domain_keywords : List String) : List String :=
  search_results.foldl (fun competitors r =>
    if r.url = "" then competitors
    else
      let title := lcS r.title
      let content := lcS r.content
      let domain := lcS (strReplace (urlparseNetloc r.url) "www." "")
      if domain = "" then competitors
      else
        let brand_found := brand_domain_keywords.any (fun k => strHasSub domain k)
        let excluded_found := excluded_domains.any (fun e => strHasSub domain e)
        if ¬ brand_found ∧ ¬ excluded_found then
          if is_legitimate_brand_domain domain title content then
            let domain_parts := splitStr domain "."
            if 2 ≤ domain_parts.length then
              setAddStr competitors (lastTwoLabels domain_parts)
            else competitors
          else competitors
        else competitors) []

/-! ## Claim C1 -/

/-- Counterexample to claim C1: a search result for
`https://shopify-competitor.com` with commerce-indicator content is NOT
included — the substring-based exclusion test finds the excluded platform
word `shopify` inside the host `shopify-competitor.com`
(app/competitor_analysis.py:115), so the result set is empty, while the
claim requires the root domain `shopify-competitor.com` in the output. -/
theorem C1_counterexample :
    extract_competitors_from_results
      [⟨"https://shopify-competitor.com", "Shopify Competitor", "shop clothing"⟩] [] = [] := by
  decide

/-- Claim C1, amended: a result with url `https://www.facebook.com/brandx`
is excluded regardless of title, content and brand keywords; a result whose
host contains the excluded substring `shopify`, such as
`https://shopify-competitor.com`, is likewise excluded; a host free of
excluded substrings and brand keywords, with commerce content and a `com`
TLD — e.g. `https://trendy-competitor.com` with content containing `shop`
and `clothing` — is included, reduced to its root domain. -/
theorem C1_competitor_filtering :
    (∀ (title content : String) (kws : List String),
      extract_competitors_from_results
        [⟨"https://www.facebook.com/brandx", title, content⟩] kws = []) ∧
    extract_competitors_from_results
      [⟨"https://shopify-competitor.com", "", "shop clothing"⟩] ["brandx"] = [] ∧
    extract_competitors_from_results
      [⟨"https://trendy-competitor.com", "", "shop clothing"⟩] ["brandx"] =
      ["trendy-competitor.com"] := by
  refine ⟨?_, by decide, by decide⟩
  intro title content kws
  simp only [extract_competitors_from_results, List.foldl_cons, List.foldl_nil]
  rw [if_neg (by decide)]
  rw [if_neg (by decide)]
  rw [if_neg (fun hc => hc.2 (by decide))]

/-! ## JSON values and a model of `json.loads`

JSON values as produced by Python's `json` module; numbers keep their raw
lexeme (no claim below inspects a numeric value).  The parser is a fueled
recursive-descent reader of the standard grammar: fuel decreases on every
recursive call, and the entry point supplies fuel that is always
sufficient.  A failed parse models `json.JSONDecodeError`. -/

inductive Json where
  | null : Json
  | bool : Bool → Json
  | num : List Char → Json
  | str : String → Json
  | arr : List Json → Json
  | obj : List (String × Json) → Json

def isJsonWs (c : Char) : Bool :=
  c = ' ' || c = '\t' || c = '\n' || c = '\r'

def skipWs (s : List Char) : List Char := s.dropWhile isJsonWs

def hexVal (c : Char) : Option Nat :=
  if 48 ≤ c.toNat ∧ c.toNat ≤ 57 then some (c.toNat - 48)
  else if 97 ≤ c.toNat ∧ c.toNat ≤ 102 then some (c.toNat - 87)
  else if 65 ≤ c.toNat ∧ c.toNat ≤ 70 then some (c.toNat - 55)
  else none

def jsonEscape (c : Char) : Option Char :=
  if c = '"' then some '"'
  else if c = '\\' then some '\\'
  else if c = '/' then some '/'
  else if c = 'b' then some '\x08'
  else if c = 'f' then some '\x0c'
  else if c = 'n' then some '\n'
  else if c = 'r' then some '\r'
  else if c = 't' then some '\t'
  else none

def isNumChar (c : Char) : Bool :=
  isDigitC c || c = '-' || c = '+' || c = '.' || c = 'e' || c = 'E'

mutual
def parseJsonV : Nat → List Char → Option (Json × List Char)
  | 0, _ => none
  | fuel + 1, s =>
    match skipWs s with
    | [] => none
    | 'n' :: rest => if ['u', 'l', 'l'].isPrefixOf rest then some (.null, rest.drop 3) else none
    | 't' :: rest => if ['r', 'u', 'e'].isPrefixOf rest then some (.bool true, rest.drop 3) else none
    | 'f' :: rest =>
      if ['a', 'l', 's', 'e'].isPrefixOf rest then some (.bool false, rest.drop 4) else none
    | '"' :: rest =>
      (parseJsonStrBody fuel rest []).map (fun p => (.str (String.mk p.1), p.2))
    | '[' :: rest => parseJsonArrRest fuel rest [] true
    | '\x7b' :: rest => parseJsonObjRest fuel rest [] true
    | c :: rest =>
      if isDigitC c ∨ c = '-' then
        let lexeme := c :: rest.takeWhile isNumChar
        if lexeme.any isDigitC then some (.num lexeme, rest.dropWhile isNumChar) else none
      else none
def parseJsonStrBody : Nat → List Char → List Char → Option (List Char × List Char)
  | 0, _, _ => none
  | _ + 1, [], _ => none
  | _ + 1, '"' :: rest, acc => some (acc.reverse, rest)
  | fuel + 1, '\\' :: rest, acc =>
    match rest with
    | [] => none
    | 'u' :: h1 :: h2 :: h3 :: h4 :: rest2 =>
      match hexVal h1, hexVal h2, hexVal h3, hexVal h4 with
      | some a, some b, some c, some d =>
        parseJsonStrBody fuel rest2 (Char.ofNat (((a * 16 + b) * 16 + c) * 16 + d) :: acc)
      | _, _, _, _ => none
    | e :: rest2 =>
      match jsonEscape e with
      | some c => parseJsonStrBody fuel rest2 (c :: acc)
      | none => none
  | fuel + 1, c :: rest, acc => parseJsonStrBody fuel rest (c :: acc)
def parseJsonArrRest : Nat → List Char → List Json → Bool → Option (Json × List Char)
  | 0, _, _, _ => none
  | fuel + 1, s, acc, allowEnd =>
    match skipWs s with
    | ']' :: rest => if allowEnd then some (.arr acc.reverse, rest) else none
    | s2 =>
      match parseJsonV fuel s2 with
      | none => none
      | some (v, r) =>
        match skipWs r with
        | ',' :: r2 => parseJsonArrRest fuel r2 (v :: acc) false
        | ']' :: r2 => some (.arr (v :: acc).reverse, r2)
        | _ => none
def parseJsonObjRest : Nat → List Char → List (String × Json) → Bool → Option (Json × List Char)
  | 0, _, _, _ => none
  | fuel + 1, s, acc, allowEnd =>
    match skipWs s with
    | '\x7d' :: rest => if allowEnd then some (.obj acc.reverse, rest) else none
    | '"' :: rest =>
      match parseJsonStrBody fuel rest [] with
      | none => none
      | some (key, r) =>
        match skipWs r with
        | ':' :: r2 =>
          match parseJsonV fuel r2 with
          | none => none
          | some (v, r3) =>
            match skipWs r3 with
            | ',' :: r4 => parseJsonObjRest fuel r4 ((String.mk key, v) :: acc) false
            | '\x7d' :: r4 => some (.obj ((String.mk key, v) :: acc).reverse, r4)
            | _ => none
        | _ => none
    | _ => none
end

/-- Models `json.loads`: parse one value and require only whitespace after
it; `none` models `json.JSONDecodeError`.  (Numeric lexemes are read
greedily rather than by the exact number grammar; no analysed claim
distinguishes the two.) -/
def jsonLoads (s : String) : Option Json :=
  match parseJsonV (2 * s.data.length + 2) s.data with
  | some (v, rest) => if skipWs rest = [] then some v else none
  | none => none

/-- First value bound to a key of a JSON object (`dict.get`). -/
def jget (kvs : List (String × Json)) (k : String) : Option Json :=
  (kvs.find? (fun kv => kv.1 == k)).map (fun kv => kv.2)

/-! ## AI Text Structuring Adapter (`get_structured_data_from_text`,
app/ai_processor.py:16-43)

The external collaborators are inputs of the model: `modelAvailable` is
whether the module-level Gemini client initialised, and `callResult` is the
outcome of `model.generate_content(prompt)` followed by `.text` — `.ok t`
when the service returned reply text `t`, `.error e` when anything in that
call raised.  The source wraps the call and the JSON parse in one
`try/except Exception` returning a sentinel dict, so the translation is a
total function into `Json`: no input can raise. -/

def errorJson (msg : String) : Json := .obj [("error", .str msg)]

/-- Models the response clean-up (app/ai_processor.py:39):
`response.text.strip().replace("```json", "").replace("```", "").strip()`. -/
def cleanResponse (t : String) : String :=
  pyStrip (strReplace (strReplace (pyStrip t) "```json" "") "```" "")

def get_structured_data_from_text (modelAvailable : Bool)
    (text_content _data_schema : String) (callResult : Except String String) : Json :=
  if ¬ modelAvailable then errorJson "Gemini model not initialized."
  else if text_content = "" then errorJson "No text content provided."
  else
    match callResult with
    | .error _ => errorJson "Failed to get structured data from AI."
    | .ok t =>
      match jsonLoads (cleanResponse t) with
      | some j => j
      | none => errorJson "Failed to get structured data from AI."

/-- Does a JSON value carry an `"error"` key (the sentinel callers check)? -/
def hasErrorKey : Json → Bool
  | .obj kvs => kvs.any (fun kv => kv.1 == "error")
  | _ => false

/-! ## Claim C9 -/

/-- Claim C9, confirmed: the adapter is a total function — every failure
path (model not initialised, empty input, service call raising, non-JSON
response) yields an object carrying an `"error"` key, and otherwise the
result is exactly the JSON value parsed from the cleaned response text. -/
theorem C9_ai_adapter_never_raises :
    ∀ (modelAvailable : Bool) (text_content data_schema : String)
      (callResult : Except String String),
      hasErrorKey (get_structured_data_from_text modelAvailable text_content
        data_schema callResult) = true ∨
      ∃ t, callResult = Except.ok t ∧
        jsonLoads (cleanResponse t) =
          some (get_structured_data_from_text modelAvailable text_content
            data_schema callResult) := by
  intro m tc ds cr
  unfold get_structured_data_from_text
  split
  · left; rfl
  · split
    · left; rfl
    · split
      · left; rfl
      · split
        · next j heq => right; exact ⟨_, rfl, heq⟩
        · left; rfl

/-! ## Model of `urllib.parse.urljoin` and URL canonicalization -/

/-- Models `s.split(c)[0]`. -/
def beforeChar (c : Char) (s : String) : String := String.mk (s.data.takeWhile (· ≠ c))

/-- Modelled from `urllib.parse.urljoin` for the reference shapes this scraper
produces: an absolute reference (own scheme) is returned as is; a
network-path reference `//…` takes the base's scheme; a root-relative
reference `/…` takes the base's scheme and netloc; any other non-empty
reference replaces the last path segment of the base; the empty reference
returns the base.  Dot-segment normalisation is not modelled — every
property proved below is insensitive to the join's value, each candidate
being re-validated by `is_valid_product_url` afterwards. -/
def urljoin (base rel : String) : String :=
  if rel = "" then base
  else if urlparseScheme rel ≠ "" then rel
  else if strStarts rel "//" then urlparseScheme base ++ ":" ++ rel
  else if strStarts rel "/" then
    urlparseScheme base ++ "://" ++ urlparseNetloc base ++ rel
  else
    urlparseScheme base ++ "://" ++ urlparseNetloc base ++
      joinStr "/" ((splitStr (urlparsePath base) "/").dropLast) ++ "/" ++ rel

/-- Resolution and canonicalization of one candidate href
(app/scraper.py:80-83): `urljoin(base_url.rstrip('/'), href)` then
`.split('?')[0].split('#')[0]`. -/
def canonicalize (base href : String) : String :=
  beforeChar '#' (beforeChar '?' (urljoin (rstripSlashes base) href))

/-! ## Hero Product Locator (`get_hero_products`, app/scraper.py:34-142) -/

def classAttr (n : Node) : Option String := attrOf n "class"

/-- The whitespace-separated class tokens of an element (the multi-valued
`class` attribute as BeautifulSoup sees it). -/
def classTokens (n : Node) : List String :=
  (splitStr ((classAttr n).getD "") " ").filter (fun t => t ≠ "")

def hasClassToken (n : Node) (t : String) : Bool := (classTokens n).any (fun x => x == t)

/-- `[class*="p"]`: substring of the raw class attribute value. -/
def classAttrHasSub (n : Node) (p : String) : Bool :=
  strHasSub ((classAttr n).getD "") p

/-- One element matching the fixed 16-selector list of strategy 1
(app/scraper.py:42-59): class-token selectors, `li.product`,
`[class*=…]` substring selectors and two data-attribute selectors. -/
def matchesContainerSel (n : Node) : Bool :=
  hasClassToken n "grid-product" || hasClassToken n "product-card" ||
  hasClassToken n "product-item" || hasClassToken n "product-block" ||
  hasClassToken n "product-tile" || hasClassToken n "product-grid-item" ||
  hasClassToken n "featured-product" || hasClassToken n "collection-item" ||
  (isTagB "li" n && hasClassToken n "product") ||
  classAttrHasSub n "product-item" || classAttrHasSub n "product-card" ||
  classAttrHasSub n "product-grid" || classAttrHasSub n "product-block" ||
  classAttrHasSub n "featured-product" ||
  (attrOf n "data-product-id").isSome || (attrOf n "data-product-handle").isSome

/-- Models `soup.select(', '.join(product_container_selectors))`. -/
def selectContainers (soup : Node) : List Node :=
  (strictDesc soup).filter matchesContainerSel

/-- Models `container.find("a", href=re.compile(r'/products/'))` followed by
`.get('href')`: the first descendant anchor whose href holds the substring. -/
def findAnchorContaining (pat : String) (n : Node) : Option String :=
  ((strictDesc n).filterMap anchorHref).find? (fun h => strHasSub h pat)

/-- Models `s.split(sep)[-1]`. -/
def afterLastSplit (s sep : String) : String := (splitStr s sep).getLastD ""

/-- Insertion of one candidate URL (app/scraper.py:80-87): canonicalize,
validate, and add to the accumulating set when valid. -/
def addCandidate (base : String) (acc : List String) (href : String) : List String :=
  let cleaned := canonicalize base href
  if is_valid_product_url cleaned then setAddStr acc cleaned else acc

/-- Strategy 1's per-container step (app/scraper.py:65-87), with its
collection-listing and cart/checkout/account/search skips. -/
def strategy1Step (base : String) (acc : List String) (container : Node) : List String :=
  match findAnchorContaining "/products/" container with
  | none => acc
  | some href =>
    if strHasSub href "/collections/" ∧
        ¬ strHasSub (afterLastSplit href "/collections/") "/products/" then acc
    else if ["/cart", "/checkout", "/account", "/search"].any (fun p => strHasSub href p) then acc
    else addCandidate base acc href

/-- Strategy 2's sections (app/scraper.py:90): section/div elements whose
class attribute exists and case-insensitively contains one of the five
keywords (none of which spans a token boundary, so attribute-level substring
equals token-level regex search). -/
def sectionsOf (soup : Node) : List Node :=
  (strictDesc soup).filter (fun n =>
    (isTagB "section" n || isTagB "div" n) &&
    (classAttr n).isSome &&
    ["featured", "hero", "collection", "products", "bestseller"].any
      (fun w => strHasSub (lcS ((classAttr n).getD "")) w))

/-- Models the regex `/products/[^/]+/?$` as searched against an href: after
discarding at most one trailing slash, the text after the last occurrence of
`/products/` must be non-empty and slash-free. -/
def matchesProductsEnd (h : String) : Bool :=
  let s := if strEnds h "/" then String.mk h.data.dropLast else h
  strHasSub s "/products/" &&
    (let seg := afterLastSplit s "/products/"
     seg ≠ "" && ¬ strHasSub seg "/")

/-- Strategy 2's anchors inside one section (app/scraper.py:93). -/
def sectionAnchors (sec : Node) : List String :=
  ((strictDesc sec).filterMap anchorHref).filter matchesProductsEnd

/-- Strategy 3's elements (app/scraper.py:102-103): elements with a
`data-product-id` attribute, extended with those with `data-product-handle`
(an element carrying both occurs twice — harmless against the set). -/
def dataProductEls (soup : Node) : List Node :=
  (strictDesc soup).filter (fun n => (attrOf n "data-product-id").isSome) ++
    (strictDesc soup).filter (fun n => (attrOf n "data-product-handle").isSome)

/-- Anchors below an element whose href holds a substring (strategy 3). -/
def elAnchorsContaining (pat : String) (el : Node) : List String :=
  ((strictDesc el).filterMap anchorHref).filter (fun h => strHasSub h pat)

/-- Models `soup.find_all('script', type='application/ld+json')`. -/
def jsonLdScripts (soup : Node) : List Node :=
  (strictDesc soup).filter (fun n =>
    isTagB "script" n &&
    (match attrOf n "type" with
     | some t => t == "application/ld+json"
     | none => false))

/-- Models BeautifulSoup's `.string`: a text node yields itself, an element
with exactly one child delegates to it, anything else yields `None`. -/
def nodeString : Node → Option String
  | .text s => some s
  | .elem _ _ (.cons c .nil) => nodeString c
  | .elem _ _ _ => none

/-- Python truthiness of a JSON value (`if product_url`); a numeric lexeme
is truthy when its mantissa holds a non-zero digit. -/
def jsonTruthy : Json → Bool
  | .null => false
  | .bool b => b
  | .str s => s ≠ ""
  | .arr l => ¬ l.isEmpty
  | .obj l => ¬ l.isEmpty
  | .num lex => (lex.takeWhile (fun c => c ≠ 'e' ∧ c ≠ 'E')).any
      (fun c => isDigitC c && c ≠ '0')

/-- Does a JSON object carry `@type == 'Product'`?  (A non-string `@type`
compares unequal to the string, as in Python.) -/
def isProductType (kvs : List (String × Json)) : Bool :=
  match jget kvs "@type" with
  | some (.str s) => s == "Product"
  | _ => false

/-- Strategy 4's item loop over a top-level JSON list (app/scraper.py:126-134).
The boolean is the raised-`TypeError` flag: `'/products/' in product_url`
raises when `product_url` is truthy but not a string, which the *outer*
`except` catches, aborting the whole strategy with the set as accumulated. -/
def strat4Items (base : String) : List Json → List String → List String × Bool
  | [], acc => (acc, false)
  | item :: rest, acc =>
    match item with
    | .obj kvs =>
      if isProductType kvs then
        match jget kvs "url" with
        | some (.str u) =>
          if u ≠ "" ∧ strHasSub u "/products/" then
            strat4Items base rest (addCandidate base acc u)
          else strat4Items base rest acc
        | some j => if jsonTruthy j then (acc, true) else strat4Items base rest acc
        | none => strat4Items base rest acc
      else strat4Items base rest acc
    | _ => strat4Items base rest acc

/-- Strategy 4's script loop (app/scraper.py:116-138): an unparsable block
(`JSONDecodeError`) is skipped; a top-level dict contributes nothing
(Product or not); a top-level list is walked item by item; a `TypeError`
aborts the remaining scripts, keeping what was accumulated. -/
def strat4Scripts (base : String) : List Node → List String → List String
  | [], acc => acc
  | sc :: rest, acc =>
    match nodeString sc with
    | none => strat4Scripts base rest acc
    | some s =>
      if s = "" then strat4Scripts base rest acc
      else
        match jsonLoads s with
        | none => strat4Scripts base rest acc
        | some (.arr items) =>
          match strat4Items base items acc with
          | (acc2, true) => acc2
          | (acc2, false) => strat4Scripts base rest acc2
        | some _ => strat4Scripts base rest acc

/-- Translation of `get_hero_products` (app/scraper.py:34-142): the four
strategies feed one accumulating set of validated canonical URLs, and
`list(hero_product_urls)[:20]` caps the result (the Python set's iteration
order is unspecified; the model keeps first-insertion order, on which no
claimed property depends). -/
def get_hero_products (soup : Node) (base_url : String) : List String :=
  let acc1 := (selectContainers soup).foldl (strategy1Step base_url) []
  let acc2 := (sectionsOf soup).foldl
    (fun acc sec => (sectionAnchors sec).foldl (fun a h => addCandidate base_url a h) acc) acc1
  let acc3 := (dataProductEls soup).foldl
    (fun acc el => (elAnchorsContaining "/products/" el).foldl
      (fun a h => addCandidate base_url a h) acc) acc2
  let acc4 := strat4Scripts base_url (jsonLdScripts soup) acc3
  acc4.take 20

/-! ## Claim C4 -/

/-- The invariant of the accumulating hero-product set: every member is a
validated product URL and no member repeats. -/
def heroInv (acc : List String) : Prop :=
  (∀ u ∈ acc, is_valid_product_url u = true) ∧ acc.Nodup

theorem setAddStr_inv {acc : List String} {x : String}
    (hx : is_valid_product_url x = true) (h : heroInv acc) : heroInv (setAddStr acc x) := by
  unfold setAddStr
  by_cases hmem : x ∈ acc
  · rw [if_pos hmem]; exact h
  · rw [if_neg hmem]
    constructor
    · intro u hu
      rcases List.mem_append.mp hu with h1 | h1
      · exact h.1 u h1
      · rw [List.mem_singleton.mp h1]; exact hx
    · rw [List.nodup_append]
      exact ⟨h.2, List.nodup_singleton x,
        fun a ha hb => hmem (by rwa [List.mem_singleton.mp hb] at ha)⟩

theorem addCandidate_inv {base h : String} {acc : List String}
    (hi : heroInv acc) : heroInv (addCandidate base acc h) := by
  have hred : addCandidate base acc h =
      if is_valid_product_url (canonicalize base h) = true then
        setAddStr acc (canonicalize base h)
      else acc := rfl
  rw [hred]
  split
  · next hv => exact setAddStr_inv hv hi
  · exact hi

theorem strategy1Step_inv {base : String} {acc : List String} {c : Node}
    (hi : heroInv acc) : heroInv (strategy1Step base acc c) := by
  unfold strategy1Step
  split
  · exact hi
  · split
    · exact hi
    · split
      · exact hi
      · exact addCandidate_inv hi

theorem strat4Items_inv (base : String) :
    ∀ (items : List Json) (acc : List String),
      heroInv acc → heroInv (strat4Items base items acc).1
  | [], _, h => h
  | item :: rest, acc, h => by
    match item with
    | .obj kvs =>
      simp only [strat4Items]
      split
      · split
        · split
          · exact strat4Items_inv base rest _ (addCandidate_inv h)
          · exact strat4Items_inv base rest acc h
        · split
          · exact h
          · exact strat4Items_inv base rest acc h
        · exact strat4Items_inv base rest acc h
      · exact strat4Items_inv base rest acc h
    | .null => exact strat4Items_inv base rest acc h
    | .bool b => exact strat4Items_inv base rest acc h
    | .num lex => exact strat4Items_inv base rest acc h
    | .str s => exact strat4Items_inv base rest acc h
    | .arr l => exact strat4Items_inv base rest acc h

theorem strat4Scripts_inv (base : String) :
    ∀ (scripts : List Node) (acc : List String),
      heroInv acc → heroInv (strat4Scripts base scripts acc)
  | [], _, h => h
  | sc :: rest, acc, h => by
    simp only [strat4Scripts]
    split
    · exact strat4Scripts_inv base rest acc h
    · split
      · exact strat4Scripts_inv base rest acc h
      · split
        · exact strat4Scripts_inv base rest acc h
        · next items heqj =>
          split
          · next acc2 heq =>
            have hit := strat4Items_inv base items acc h
            rw [heq] at hit
            exact hit
          · next acc2 heq =>
            have hit := strat4Items_inv base items acc h
            rw [heq] at hit
            exact strat4Scripts_inv base rest acc2 hit
        · exact strat4Scripts_inv base rest acc h

/-- Claim C4, confirmed: for every homepage document and base URL the Hero
Product Locator's list has at most 20 entries, every entry passes
`is_valid_product_url`, and no two entries coincide (entries are stored in
canonical form — resolved against the base and stripped of query and
fragment — and deduplicated by exact canonical string). -/
theorem C4_hero_products_bounded_valid_nodup :
    ∀ (soup : Node) (base_url : String),
      (get_hero_products soup base_url).length ≤ 20 ∧
      (∀ u ∈ get_hero_products soup base_url, is_valid_product_url u = true) ∧
      (get_hero_products soup base_url).Nodup := by
  intro soup base
  have h0 : heroInv [] := ⟨fun u hu => absurd hu (List.not_mem_nil u), List.nodup_nil⟩
  have h1 : heroInv ((selectContainers soup).foldl (strategy1Step base) []) :=
    foldl_inv heroInv _ (fun _ _ hm => strategy1Step_inv hm) _ _ h0
  have h2 : heroInv ((sectionsOf soup).foldl
      (fun acc sec => (sectionAnchors sec).foldl (fun a h => addCandidate base a h) acc)
      ((selectContainers soup).foldl (strategy1Step base) [])) :=
    foldl_inv heroInv _
      (fun _ _ hm => foldl_inv heroInv _ (fun _ _ hm2 => addCandidate_inv hm2) _ _ hm) _ _ h1
  have h3 : heroInv ((dataProductEls soup).foldl
      (fun acc el => (elAnchorsContaining "/products/" el).foldl
        (fun a h => addCandidate base a h) acc)
      ((sectionsOf soup).foldl
        (fun acc sec => (sectionAnchors sec).foldl (fun a h => addCandidate base a h) acc)
        ((selectContainers soup).foldl (strategy1Step base) []))) :=
    foldl_inv heroInv _
      (fun _ _ hm => foldl_inv heroInv _ (fun _ _ hm2 => addCandidate_inv hm2) _ _ hm) _ _ h2
  have h4 := strat4Scripts_inv base (jsonLdScripts soup) _ h3
  unfold get_hero_products
  refine ⟨?_, ?_, ?_⟩
  · exact List.length_take_le 20 _
  · intro u hu
    exact h4.1 u (List.take_subset _ _ hu)
  · exact h4.2.sublist (List.take_sublist _ _)

/-! ## Regular-expression matchers of the Contact Extractor

Each pattern of `extract_contact_details` (app/scraper.py:277-286) is
hand-compiled to a backtracking matcher over character lists: greedy pieces
enumerate their candidate lengths longest-first and `List.findSome?`
realises the regex engine's backtracking order, so a matcher returns
exactly the leftmost match Python's `re` would produce at that position.
`re.findall` semantics (non-overlapping scan, full match for group-free
patterns, the lone group for a one-group pattern) is `findallF`. -/

/-- The class `[\s.-]`. -/
def sepC (c : Char) : Bool := isWsC c || c = '.' || c = '-'

def runLen (p : Char → Bool) (s : List Char) : Nat := (s.takeWhile p).length

/-- Candidate lengths for a greedy `p{mn,mx}` piece, longest first. -/
def greedyCounts (p : Char → Bool) (mn mx : Nat) (s : List Char) : List Nat :=
  ((List.range (min (runLen p s) mx + 1)).reverse).filter (fun d => mn ≤ d)

/-- Candidate consumptions for a greedy optional character `c?`:
with-then-without when it is there. -/
def optTake (p : Char → Bool) (s : List Char) : List Nat :=
  match s with
  | c :: _ => if p c then [1, 0] else [0]
  | [] => [0]

/-- Exactly `n` digits at the head of `s`. -/
def exactDigits (n : Nat) (s : List Char) : Bool :=
  n ≤ s.length && (s.take n).all isDigitC

/-- Python `\b` between the previous character and the head of `s`. -/
def boundaryAt (prev : Option Char) (s : List Char) : Bool :=
  (match prev with | some c => isWordC c | none => false) ≠
    (match s with | c :: _ => isWordC c | [] => false)

/-- `\b` after a word character: the rest must start non-word or be empty. -/
def endBoundary (s : List Char) : Bool :=
  match s with
  | c :: _ => ¬ isWordC c
  | [] => true

/-- The mandatory tail `\(?\d{3}\)?[\s.-]?\d{3}[\s.-]?\d{4}` of the first
phone pattern, at the head of `s`: consumed length. -/
def p1rest (s : List Char) : Option Nat :=
  (optTake (· = '(') s).findSome? fun a =>
  if exactDigits 3 (s.drop a) then
    (optTake (· = ')') (s.drop (a + 3))).findSome? fun b =>
    (optTake sepC (s.drop (a + 3 + b))).findSome? fun c =>
    if exactDigits 3 (s.drop (a + 3 + b + c)) then
      (optTake sepC (s.drop (a + 3 + b + c + 3))).findSome? fun d =>
      if exactDigits 4 (s.drop (a + 3 + b + c + 3 + d)) then
        some (a + 3 + b + c + 3 + d + 4)
      else none
    else none
  else none

/-- Candidate consumptions of the optional group `(\+\d{1,3}[\s.-]?)?` when
it participates, greedy order. -/
def p1ccCands (s : List Char) : List Nat :=
  match s with
  | '+' :: t =>
    (greedyCounts isDigitC 1 3 t).flatMap (fun d =>
      match t.drop d with
      | c :: _ => if sepC c then [1 + d + 1, 1 + d] else [1 + d]
      | [] => [1 + d])
  | _ => []

/-- First phone pattern `(\+\d{1,3}[\s.-]?)?\(?\d{3}\)?[\s.-]?\d{3}[\s.-]?\d{4}`
at one position: total matched length paired with the text captured by the
single group — the country-code prefix, or `""` when the group did not
participate — which is exactly what `re.findall` collects for a one-group
pattern. -/
def matchP1 (s : List Char) : Option (Nat × String) :=
  match (p1ccCands s).findSome?
      (fun cc => (p1rest (s.drop cc)).map (fun n => (cc + n, String.mk (s.take cc)))) with
  | some r => some r
  | none => (p1rest s).map (fun n => (n, ""))

/-- Second phone pattern `\+\d{1,3}[\s.-]?\d{1,4}[\s.-]?\d{1,4}[\s.-]?\d{1,9}`
(group-free: the full match is collected). -/
def matchP2 (s : List Char) : Option (Nat × String) :=
  match s with
  | '+' :: t =>
    ((greedyCounts isDigitC 1 3 t).findSome? fun d1 =>
      (optTake sepC (t.drop d1)).findSome? fun a =>
      (greedyCounts isDigitC 1 4 (t.drop (d1 + a))).findSome? fun d2 =>
      (optTake sepC (t.drop (d1 + a + d2))).findSome? fun b =>
      (greedyCounts isDigitC 1 4 (t.drop (d1 + a + d2 + b))).findSome? fun d3 =>
      (optTake sepC (t.drop (d1 + a + d2 + b + d3))).findSome? fun c =>
      (greedyCounts isDigitC 1 9 (t.drop (d1 + a + d2 + b + d3 + c))).findSome? fun d4 =>
        some (1 + d1 + a + d2 + b + d3 + c + d4)).map
      (fun n => (n, String.mk (s.take n)))
  | _ => none

/-- Third phone pattern `\b\d{3}[\s.-]?\d{3}[\s.-]?\d{4}\b`. -/
def matchP3 (prev : Option Char) (s : List Char) : Option (Nat × String) :=
  if boundaryAt prev s then
    (if exactDigits 3 s then
      (optTake sepC (s.drop 3)).findSome? fun a =>
      if exactDigits 3 (s.drop (3 + a)) then
        (optTake sepC (s.drop (3 + a + 3))).findSome? fun b =>
        if exactDigits 4 (s.drop (3 + a + 3 + b)) then
          if endBoundary (s.drop (3 + a + 3 + b + 4)) then some (3 + a + 3 + b + 4) else none
        else none
      else none
    else none).map (fun n => (n, String.mk (s.take n)))
  else none

/-- Fourth phone pattern `\b\d{10}\b`. -/
def matchP4 (prev : Option Char) (s : List Char) : Option (Nat × String) :=
  if boundaryAt prev s ∧ exactDigits 10 s ∧ endBoundary (s.drop 10) then
    some (10, String.mk (s.take 10))
  else none

def emailLocalC (c : Char) : Bool :=
  isAlnumC c || c = '.' || c = '_' || c = '%' || c = '+' || c = '-'

def emailDomC (c : Char) : Bool := isAlnumC c || c = '.' || c = '-'

/-- The email pattern `\b[a-zA-Z0-9._%+-]+@[a-zA-Z0-9.-]+\.[a-zA-Z]{2,}\b`
(group-free). -/
def matchEmail (prev : Option Char) (s : List Char) : Option (Nat × String) :=
  if boundaryAt prev s then
    ((greedyCounts emailLocalC 1 s.length s).findSome? fun n1 =>
      match s.drop n1 with
      | '@' :: s2 =>
        (greedyCounts emailDomC 1 s2.length s2).findSome? fun n2 =>
          match s2.drop n2 with
          | '.' :: s3 =>
            (greedyCounts isAlphaC 2 s3.length s3).findSome? fun n3 =>
              if endBoundary (s3.drop n3) then some (n1 + 1 + n2 + 1 + n3) else none
          | _ => none
      | _ => none).map (fun n => (n, String.mk (s.take n)))
  else none

/-- `re.findall` driver: scan positions left to right, record each match and
resume after it (or one character on, for a failure or an empty match),
threading the previous character for `\b`.  Fuel `s.length` is exact, as
every step consumes at least one character. -/
def findallF (m : Option Char → List Char → Option (Nat × String)) :
    Nat → Option Char → List Char → List String
  | 0, _, _ => []
  | _ + 1, _, [] => []
  | fuel + 1, prev, c :: rest =>
    match m prev (c :: rest) with
    | some (len, out) =>
      if len = 0 then out :: findallF m fuel (some c) rest
      else out :: findallF m fuel (((c :: rest).take len).getLast?) ((c :: rest).drop len)
    | none => findallF m fuel (some c) rest

def findallStr (m : Option Char → List Char → Option (Nat × String)) (s : String) :
    List String :=
  findallF m s.data.length none s.data

def email_findall (s : String) : List String := findallStr matchEmail s
def phone1_findall (s : String) : List String := findallStr (fun _ t => matchP1 t) s
def phone2_findall (s : String) : List String := findallStr (fun _ t => matchP2 t) s
def phone3_findall (s : String) : List String := findallStr matchP3 s
def phone4_findall (s : String) : List String := findallStr matchP4 s

/-! ## Contact Extractor (`extract_contact_details`, app/scraper.py:259-299) -/

/-- Models `soup.find_all(['section', 'div'], class_=re.compile(r'(contact|footer|about)', re.I))`
(the three words span no token boundary, so attribute-level substring equals
the token-level regex search). -/
def contactSections (soup : Node) : List Node :=
  (strictDesc soup).filter (fun n =>
    (isTagB "section" n || isTagB "div" n) &&
    (classAttr n).isSome &&
    ["contact", "footer", "about"].any (fun w => strHasSub (lcS ((classAttr n).getD "")) w))

/-- Translation of `extract_contact_details` (app/scraper.py:259-299),
returning `(emails, phone_numbers)`.  The source also computes a
`contact_pages` list of anchors that it never uses; it has no counterpart
here.  Emails keep only matches containing `@` and `.`, lowercased; phones
keep only matches whose digit-only form has at least 10 digits, stripped;
both are deduplicated (first occurrence, standing for `list(set(...))`) and
capped at 5 and 3. -/
def extract_contact_details (soup : Node) : List String × List String :=
  let text_sources := (contactSections soup).map getTextPlain ++ [getTextPlain soup]
  let all_text := joinStr " " text_sources
  let emails := email_findall all_text
  let phones := phone1_findall all_text ++ phone2_findall all_text ++
    phone3_findall all_text ++ phone4_findall all_text
  let emails2 := dedupFirst ((emails.filter (fun e => strHasSub e "@" && strHasSub e ".")).map lcS)
  let phones2 := dedupFirst ((phones.filter (fun p => 10 ≤ digitCount p)).map pyStrip)
  (emails2.take 5, phones2.take 3)

/-! ## Claim C8 -/

def c8doc : Node :=
  .elem "html" [] (.ofList [.elem "body" []
    (.ofList [.text "reach us at hello@brandx.com or call 555-123-4567"])])

/-- Claim C8, confirmed: on a document whose text is
`reach us at hello@brandx.com or call 555-123-4567`, the Contact Extractor
returns exactly `emails = ["hello@brandx.com"]` and a phone list of at most
3 entries containing a match whose digit-only form has exactly 10 digits
(here the single entry `555-123-4567`, found by the third pattern; the
first pattern contributes only its empty capture, which the ≥10-digit
filter drops). -/
theorem C8_contact_extractor :
    extract_contact_details c8doc = (["hello@brandx.com"], ["555-123-4567"]) ∧
    (extract_contact_details c8doc).2.length ≤ 3 ∧
    ∃ p ∈ (extract_contact_details c8doc).2, digitCount p = 10 := by
  refine ⟨by decide, by decide, ⟨"555-123-4567", by decide, by decide⟩⟩

/-! ## Claim C10 -/

theorem greedyCounts_le {p : Char → Bool} {mn mx : Nat} {s : List Char} :
    ∀ d ∈ greedyCounts p mn mx s, d ≤ mx := by
  intro d hd
  unfold greedyCounts at hd
  rw [List.mem_filter] at hd
  have h1 := List.mem_range.mp (List.mem_reverse.mp hd.1)
  have h2 : d ≤ min (runLen p s) mx := Nat.lt_succ_iff.mp h1
  exact le_trans h2 (Nat.min_le_right _ _)

theorem p1ccCands_le (s : List Char) : ∀ cc ∈ p1ccCands s, cc ≤ 5 := by
  intro cc hcc
  unfold p1ccCands at hcc
  split at hcc
  · rw [List.mem_flatMap] at hcc
    obtain ⟨d, hd, hcc2⟩ := hcc
    have hd3 : d ≤ 3 := greedyCounts_le d hd
    split at hcc2
    · split at hcc2
      · rcases List.mem_cons.mp hcc2 with rfl | h2
        · omega
        · rw [List.mem_singleton.mp h2]; omega
      · rw [List.mem_singleton.mp hcc2]; omega
    · rw [List.mem_singleton.mp hcc2]; omega
  · simp at hcc

theorem matchP1_digits (s : List Char) (len : Nat) (g : String)
    (h : matchP1 s = some (len, g)) : digitCount g < 10 := by
  unfold matchP1 at h
  split at h
  · next r heq =>
    obtain ⟨cc, hcc, hf⟩ := List.exists_of_findSome?_eq_some heq
    rcases Option.map_eq_some'.mp hf with ⟨n, _, hr⟩
    injection h with h2
    subst h2
    have hg : g = String.mk (s.take cc) := by
      have := congrArg Prod.snd hr
      simpa using this.symm
    subst hg
    have hc1 : digitCount (String.mk (s.take cc)) ≤ (s.take cc).length :=
      List.countP_le_length _
    have hc2 : (s.take cc).length ≤ cc := List.length_take_le cc s
    have hc3 : cc ≤ 5 := p1ccCands_le s cc hcc
    omega
  · rcases Option.map_eq_some'.mp h with ⟨n, _, hp⟩
    have hg : g = "" := by
      have := congrArg Prod.snd hp
      simpa using this.symm
    subst hg
    decide

theorem findallF_all (m : Option Char → List Char → Option (Nat × String))
    (P : String → Prop)
    (hm : ∀ prev s len out, m prev s = some (len, out) → P out) :
    ∀ (fuel : Nat) (prev : Option Char) (s : List Char) (out : String),
      out ∈ findallF m fuel prev s → P out
  | 0, _, _, out, h => absurd h (List.not_mem_nil out)
  | _ + 1, _, [], out, h => absurd h (List.not_mem_nil out)
  | fuel + 1, prev, c :: rest, out, h => by
    simp only [findallF] at h
    split at h
    · next len o heq =>
      split at h
      · rcases List.mem_cons.mp h with rfl | h2
        · exact hm prev _ len out heq
        · exact findallF_all m P hm fuel (some c) rest out h2
      · rcases List.mem_cons.mp h with rfl | h2
        · exact hm prev _ len out heq
        · exact findallF_all m P hm fuel _ _ out h2
    · exact findallF_all m P hm fuel (some c) rest out h

def c10doc : Node :=
  .elem "html" [] (.ofList [.elem "body" [] (.ofList [.text "(555) 123-4567"])])

/-- Claim C10, confirmed: the first (parenthesised US-format) phone pattern
never contributes a phone number — `re.findall` on a one-group pattern
yields only the captured country-code prefix (at most the `+`, three digits
and one separator) or the empty string, whose digit-only form is always
shorter than 10 and fails the filter.  In particular a document whose whole
text is `(555) 123-4567` — a 10-digit US phone number matched in full by
the pattern — produces an empty phone list. -/
theorem C10_first_phone_pattern_contributes_nothing :
    (∀ text g : String, g ∈ phone1_findall text → digitCount g < 10) ∧
    phone1_findall "(555) 123-4567" = [""] ∧
    extract_contact_details c10doc = ([], []) ∧
    digitCount "(555) 123-4567" = 10 := by
  refine ⟨?_, by decide, by decide, by decide⟩
  intro text g hg
  exact findallF_all (fun _ t => matchP1 t) (fun out => digitCount out < 10)
    (fun _ s len out h => matchP1_digits s len out h)
    text.data.length none text.data g hg

theorem C10_first_phone_pattern_contributes_nothing_witness :
    "" ∈ phone1_findall "(555) 123-4567" ∧ digitCount "" < 10 :=
  ⟨by decide,
    C10_first_phone_pattern_contributes_nothing.1 "(555) 123-4567" "" (by decide)⟩

end InsightsFetcher
